import Mathlib

/-!
# Word-count pipeline: shallow embedding

Embedding of `src/wordcount/main.py` (`perform_word_count`), a PySpark
word-count.  The Spark pipeline is

* tokenize: `explode(split(col("line"), r"\s+"))` — Java regex split with
  limit `-1`: the separators are the maximal runs of whitespace
  (`\s = [ \t\n\x0B\f\r]` in Java's default ASCII mode), and the substrings
  before the first separator and after the last one are kept even when
  empty, so a line with leading/trailing whitespace yields empty tokens and
  the empty line yields `[""]`;
* normalize: `lower(regexp_replace(col("word"), r"[^\w]", ""))` — every
  character outside Java's ASCII word class `[A-Za-z0-9_]` is removed,
  then the rest is lowercased;
* `filter(col("word") != "")` — empty normalized words are dropped;
* aggregate: `groupBy("word").agg(count("*"))`, ordered by count
  descending, shown truncated to 20 rows; the frequency-of-frequencies
  view is `groupBy("count").agg(count("*"))` ordered by count value
  descending, shown truncated to 10 rows.

`spark.createDataFrame([(line,) for line in input_data], ["line"])` raises
`ValueError: can not infer schema from empty dataset` when `input_data` is
empty; `perform_word_count` models this with an `Option` result.
-/

namespace WC

/-- Java's `\s` character class (default, non-Unicode mode):
space, tab, newline, vertical tab, form feed, carriage return. -/
def isWs (c : Char) : Bool :=
  c == ' ' || c == '\t' || c == '\n' || c == '\x0b' || c == '\x0c' || c == '\r'

/-- State machine for Java `Pattern.split` on `\s+` with limit `-1`:
`acc` holds the characters of the current segment (reversed), `inSep` is
true while consuming a run of separator whitespace (whose preceding
segment has already been emitted). At end of input the pending segment is
emitted — the empty one when the string ends in whitespace or is empty. -/
def splitWsGo : List Char → List Char → Bool → List String
  | [], acc, _ => [String.mk acc.reverse]
  | c :: cs, acc, inSep =>
    if isWs c then
      if inSep then splitWsGo cs [] true
      else String.mk acc.reverse :: splitWsGo cs [] true
    else splitWsGo cs (c :: acc) false

/-- `split(col("line"), r"\s+")` of the source: Java regex split with the
default limit `-1`. -/
def splitWs (s : String) : List String :=
  splitWsGo s.data [] false

/-- Java's `\w` word-character class in its default (ASCII) mode:
`[A-Za-z0-9_]`, stated on code points. -/
def isWordChar (c : Char) : Bool :=
  (65 ≤ c.toNat && c.toNat ≤ 90) || (97 ≤ c.toNat && c.toNat ≤ 122) ||
    (48 ≤ c.toNat && c.toNat ≤ 57) || c.toNat == 95

/-- Lowercasing as it acts on the characters that survive the `[^\w]`
strip: `A`–`Z` map down by 32, everything else is already fixed. -/
def lowerChar (c : Char) : Char :=
  if 65 ≤ c.toNat && c.toNat ≤ 90 then Char.ofNat (c.toNat + 32) else c

/-- A character of a finished normalized word: `[a-z0-9_]`. -/
def isLowerWordChar (c : Char) : Bool :=
  (97 ≤ c.toNat && c.toNat ≤ 122) || (48 ≤ c.toNat && c.toNat ≤ 57) ||
    c.toNat == 95

/-- `lower(regexp_replace(word, r"[^\w]", ""))` of the source: drop every
non-word character, then lowercase what remains. -/
def normalize (t : String) : String :=
  String.mk ((t.data.filter isWordChar).map lowerChar)

/-- All raw tokens of the input, in order: `explode(split(...))` over the
lines of the input DataFrame. -/
def tokens : List String → List String
  | [] => []
  | line :: rest => splitWs line ++ tokens rest

/-- The rows of `clean_words_df`: each token normalized, empty results
filtered out (`filter(col("word") != "")`). -/
def cleanWords (input : List String) : List String :=
  ((tokens input).map normalize).filter (fun w => w != "")

/-- The frequency table built by `groupBy("word").agg(count("*"))`, as a
count function: words not in the table have count 0. -/
def freqTable (input : List String) : String → Nat :=
  fun w => (cleanWords input).count w

/-- The key column of the grouped table: one row per distinct clean word. -/
def tableKeys (input : List String) : List String :=
  (cleanWords input).dedup

/-- `clean_words_df.count()`, printed as "Total word occurrences". -/
def totalOccurrences (input : List String) : Nat :=
  (cleanWords input).length

/-- The sum of all values of the frequency table: each distinct key's
count, summed. -/
def sumCounts (input : List String) : Nat :=
  ((tableKeys input).map (freqTable input)).sum

/-- The rows of `word_counts_df` before ordering: one `(word, count)` pair
per distinct clean word. -/
def entries (input : List String) : List (String × Nat) :=
  (tableKeys input).map (fun w => (w, freqTable input w))

/-- Count-descending comparison used by `orderBy(col("count").desc())`. -/
def countGe (a b : String × Nat) : Prop := b.2 ≤ a.2

instance : DecidableRel countGe := fun a b => Nat.decLe b.2 a.2

instance : IsTotal (String × Nat) countGe := ⟨fun a b => Nat.le_total b.2 a.2⟩

instance : IsTrans (String × Nat) countGe :=
  ⟨fun _ _ _ h h' => Nat.le_trans h' h⟩

/-- `word_counts_df`: the entries ordered by count descending (Spark fixes
no tie-break among equal counts; the model picks one concrete order). -/
def sortedEntries (input : List String) : List (String × Nat) :=
  (entries input).insertionSort countGe

/-- `word_counts_df.show(k)`: the first `k` rows of the count-descending
table; the source calls it with `k = 20`. -/
def topReport (input : List String) (k : Nat) : List (String × Nat) :=
  (sortedEntries input).take k

/-- The rows of `groupBy("count").agg(count("*"))` before ordering: for
each distinct count value, how many distinct words have that count. -/
def histEntries (input : List String) : List (Nat × Nat) :=
  ((entries input).map Prod.snd).dedup.map
    (fun c => (c, ((entries input).filter (fun e => e.2 == c)).length))

/-- Count-value-descending comparison for the histogram's
`orderBy(col("count").desc())`. -/
def fstGe (a b : Nat × Nat) : Prop := b.1 ≤ a.1

instance : DecidableRel fstGe := fun a b => Nat.decLe b.1 a.1

instance : IsTotal (Nat × Nat) fstGe := ⟨fun a b => Nat.le_total b.1 a.1⟩

instance : IsTrans (Nat × Nat) fstGe :=
  ⟨fun _ _ _ h h' => Nat.le_trans h' h⟩

/-- The histogram view, ordered by count value descending and shown
truncated to 10 rows (`show(10)`). -/
def histReport (input : List String) : List (Nat × Nat) :=
  ((histEntries input).insertionSort fstGe).take 10

/-- Merging two partial frequency tables by summing counts for shared
keys (a key missing from one side has count 0 there). -/
def mergeTables (t1 t2 : String → Nat) : String → Nat :=
  fun w => t1 w + t2 w

/-- The empty frequency table. -/
def emptyTable : String → Nat := fun _ => 0

/-- Per-chunk partial tables merged into one. -/
def mergedTable (chunks : List (List String)) : String → Nat :=
  (chunks.map freqTable).foldr mergeTables emptyTable

/-- Concatenation of the chunks of a partition of the input lines. -/
def flattenChunks : List (List String) → List String
  | [] => []
  | c :: cs => c ++ flattenChunks cs

/-- The structured output of a run: unique-word count, total occurrences,
the shown top-20 rows and the shown 10-row histogram. -/
structure WordCountResult where
  uniqueWords : Nat
  occurrences : Nat
  top : List (String × Nat)
  hist : List (Nat × Nat)
deriving DecidableEq, Repr

/-- `perform_word_count` of the source. `none` models the
`ValueError: can not infer schema from empty dataset` that
`spark.createDataFrame([], ["line"])` raises when the input line list is
empty; otherwise the pipeline runs and produces its report data. -/
def perform_word_count (input : List String) : Option WordCountResult :=
  if input.isEmpty then none
  else some
    { uniqueWords := (tableKeys input).length
      occurrences := totalOccurrences input
      top := topReport input 20
      hist := histReport input }

/-! ## Helper lemmas -/

theorem toNat_ofNat_lt (n : Nat) (h : n < 55296) : (Char.ofNat n).toNat = n := by
  have hv : n.isValidChar := Or.inl h
  simp [Char.ofNat, hv, Char.ofNatAux, Char.toNat, UInt32.toNat, BitVec.toNat_ofNatLt]

theorem lowerChar_toNat_of_upper (c : Char) (h1 : 65 ≤ c.toNat) (h2 : c.toNat ≤ 90) :
    (lowerChar c).toNat = c.toNat + 32 := by
  have hb : (decide (65 ≤ c.toNat) && decide (c.toNat ≤ 90)) = true := by
    simp [h1, h2]
  rw [lowerChar, if_pos hb]
  exact toNat_ofNat_lt _ (by omega)

theorem lowerChar_eq_of_not_upper (c : Char) (h : ¬(65 ≤ c.toNat ∧ c.toNat ≤ 90)) :
    lowerChar c = c := by
  have hb : (decide (65 ≤ c.toNat) && decide (c.toNat ≤ 90)) = false := by
    simp only [Bool.and_eq_false_iff, decide_eq_false_iff_not, not_le]
    omega
  rw [lowerChar, if_neg (by simp [hb])]

theorem isLowerWordChar_lowerChar (c : Char) (h : isWordChar c = true) :
    isLowerWordChar (lowerChar c) = true := by
  simp only [isWordChar, Bool.or_eq_true, Bool.and_eq_true, decide_eq_true_eq, beq_iff_eq] at h
  simp only [isLowerWordChar, Bool.or_eq_true, Bool.and_eq_true, decide_eq_true_eq, beq_iff_eq]
  by_cases hu : 65 ≤ c.toNat ∧ c.toNat ≤ 90
  · rw [lowerChar_toNat_of_upper c hu.1 hu.2]
    omega
  · rw [lowerChar_eq_of_not_upper c hu]
    omega

theorem lowerChar_toNat_le (c : Char) (h : isWordChar c = true) :
    (lowerChar c).toNat ≤ 122 := by
  simp only [isWordChar, Bool.or_eq_true, Bool.and_eq_true, decide_eq_true_eq, beq_iff_eq] at h
  by_cases hu : 65 ≤ c.toNat ∧ c.toNat ≤ 90
  · rw [lowerChar_toNat_of_upper c hu.1 hu.2]
    omega
  · rw [lowerChar_eq_of_not_upper c hu]
    omega

theorem isWordChar_of_isLowerWordChar (c : Char) (h : isLowerWordChar c = true) :
    isWordChar c = true := by
  simp only [isLowerWordChar, Bool.or_eq_true, Bool.and_eq_true, decide_eq_true_eq, beq_iff_eq] at h
  simp only [isWordChar, Bool.or_eq_true, Bool.and_eq_true, decide_eq_true_eq, beq_iff_eq]
  omega

theorem lowerChar_eq_of_isLowerWordChar (c : Char) (h : isLowerWordChar c = true) :
    lowerChar c = c := by
  simp only [isLowerWordChar, Bool.or_eq_true, Bool.and_eq_true, decide_eq_true_eq, beq_iff_eq] at h
  exact lowerChar_eq_of_not_upper c (by omega)

theorem splitWsGo_no_ws (l : List Char) :
    ∀ (acc : List Char) (inSep : Bool), (∀ c ∈ acc, isWs c = false) →
      ∀ t ∈ splitWsGo l acc inSep, ∀ c ∈ t.data, isWs c = false := by
  induction l with
  | nil =>
    intro acc _ hacc t ht c hc
    simp only [splitWsGo, List.mem_singleton] at ht
    subst ht
    exact hacc c (by simpa using hc)
  | cons ch cs ih =>
    intro acc inSep hacc t ht c hc
    by_cases hw : isWs ch
    · cases inSep with
      | true =>
        rw [splitWsGo, if_pos hw, if_pos rfl] at ht
        exact ih [] true (by simp) t ht c hc
      | false =>
        rw [splitWsGo, if_pos hw, if_neg (by simp)] at ht
        rcases List.mem_cons.mp ht with h1 | h1
        · subst h1
          exact hacc c (by simpa using hc)
        · exact ih [] true (by simp) t h1 c hc
    · rw [splitWsGo, if_neg hw] at ht
      refine ih (ch :: acc) false ?_ t ht c hc
      intro d hd
      rcases List.mem_cons.mp hd with h1 | h1
      · subst h1
        exact Bool.eq_false_iff.mpr hw
      · exact hacc d h1

theorem splitWs_no_ws (s : String) : ∀ t ∈ splitWs s, ∀ c ∈ t.data, isWs c = false :=
  splitWsGo_no_ws s.data [] false (by simp)

theorem tokens_append (l1 l2 : List String) :
    tokens (l1 ++ l2) = tokens l1 ++ tokens l2 := by
  induction l1 with
  | nil => simp [tokens]
  | cons x xs ih => simp [tokens, ih]

theorem tokens_perm {l1 l2 : List String} (h : l1.Perm l2) :
    (tokens l1).Perm (tokens l2) := by
  induction h with
  | nil => exact List.Perm.refl _
  | cons x _ ih => exact (ih.append_left (splitWs x) : _)
  | swap x y l => exact List.perm_append_comm_assoc _ _ _
  | trans _ _ ih1 ih2 => exact ih1.trans ih2

theorem cleanWords_append (l1 l2 : List String) :
    cleanWords (l1 ++ l2) = cleanWords l1 ++ cleanWords l2 := by
  simp [cleanWords, tokens_append]

theorem cleanWords_perm {l1 l2 : List String} (h : l1.Perm l2) :
    (cleanWords l1).Perm (cleanWords l2) :=
  ((tokens_perm h).map normalize).filter _

theorem mergedTable_count (chunks : List (List String)) (w : String) :
    mergedTable chunks w = (cleanWords (flattenChunks chunks)).count w := by
  induction chunks with
  | nil => rfl
  | cons c cs ih =>
    show mergeTables (freqTable c) (mergedTable cs) w = _
    rw [mergeTables, ih, freqTable, flattenChunks, cleanWords_append,
      List.count_append]

/-! ## Claims -/

/-- C1: for every input line list and every partition of it into chunks
(any chunk list whose concatenation is a permutation of the input, which
also covers any merge order), building a partial frequency table per chunk
with the tokenize–normalize–count pipeline and merging the partial tables
by summing counts yields exactly the one-pass table: the same count at
every word, hence the same key set. -/
theorem claim1_partition_merge (input : List String)
    (chunks : List (List String)) (h : (flattenChunks chunks).Perm input) :
    (∀ w, mergedTable chunks w = freqTable input w) ∧
    {w | 0 < mergedTable chunks w} = {w | 0 < freqTable input w} := by
  have key : ∀ w, mergedTable chunks w = freqTable input w := by
    intro w
    rw [mergedTable_count, freqTable]
    exact (cleanWords_perm h).count_eq w
  exact ⟨key, by ext w; simp [key w]⟩

/-- Witness for C1: a concrete two-chunk partition, in swapped order,
merges to the one-pass table. -/
theorem claim1_witness :
    (flattenChunks [["c c"], ["a a b"]]).Perm ["a a b", "c c"] ∧
    mergedTable [["c c"], ["a a b"]] "a" = freqTable ["a a b", "c c"] "a" :=
  ⟨by decide,
    (claim1_partition_merge ["a a b", "c c"] [["c c"], ["a a b"]]
      (by decide)).1 "a"⟩

/-- C2 as stated fails on the code: Spark's split keeps the empty
substring before a leading whitespace separator, so the token list of
" a" contains the empty string. -/
theorem claim2_counterexample : "" ∈ splitWs " a" := by decide

/-- C2 amended: no token ever contains a whitespace character, but a line
with leading or trailing whitespace yields an empty token at that end and
the empty line yields [""] rather than the empty sequence; the pipeline's
post-normalization filter removes these, so no empty string reaches the
clean word stream. -/
theorem claim2_amended :
    (∀ L : String, ∀ t ∈ splitWs L, ∀ c ∈ t.data, isWs c = false) ∧
    splitWs "" = [""] ∧ splitWs " a" = ["", "a"] ∧ splitWs "a " = ["a", ""] ∧
    (∀ input : List String, "" ∉ cleanWords input) := by
  refine ⟨fun L => splitWs_no_ws L, by decide, by decide, by decide,
    fun input hmem => ?_⟩
  have := List.of_mem_filter hmem
  simp at this

/-- Witness for C2 (amended): a concrete token of a concrete line, with a
concrete character shown to be non-whitespace. -/
theorem claim2_witness : isWs 'b' = false :=
  claim2_amended.1 "a b" "b" (by decide) 'b' (by decide)

/-- C3: normalizing any raw token yields either the empty string (which
the pipeline drops) or a non-empty string all of whose characters are
lowercase word characters [a-z0-9_] — no whitespace, no punctuation. -/
theorem claim3_normalizer_output (t : String) :
    normalize t = "" ∨
      (normalize t ≠ "" ∧ ∀ c ∈ (normalize t).data, isLowerWordChar c = true) := by
  by_cases h : normalize t = ""
  · exact Or.inl h
  · refine Or.inr ⟨h, fun c hc => ?_⟩
    have hc' : c ∈ (t.data.filter isWordChar).map lowerChar := hc
    obtain ⟨d, hd, rfl⟩ := List.mem_map.mp hc'
    exact isLowerWordChar_lowerChar d (List.of_mem_filter hd)

/-- Witness for C3 at the raw token "Hello,". -/
theorem claim3_witness :
    normalize "Hello," = "" ∨
      (normalize "Hello," ≠ "" ∧
        ∀ c ∈ (normalize "Hello,").data, isLowerWordChar c = true) :=
  claim3_normalizer_output "Hello,"

/-- C4: the normalization transform is idempotent — a non-empty string
consisting only of lowercase word characters is returned unchanged. -/
theorem claim4_idempotent (w : String) (_hne : w ≠ "")
    (h : ∀ c ∈ w.data, isLowerWordChar c = true) : normalize w = w := by
  have hfilter : w.data.filter isWordChar = w.data :=
    List.filter_eq_self.mpr fun c hc => isWordChar_of_isLowerWordChar c (h c hc)
  have hmap : w.data.map lowerChar = w.data.map id :=
    List.map_congr_left fun c hc => lowerChar_eq_of_isLowerWordChar c (h c hc)
  rw [normalize, hfilter, hmap, List.map_id]

/-- Witness for C4 at the already-normalized word "c_d3". -/
theorem claim4_witness : normalize "c_d3" = "c_d3" :=
  claim4_idempotent "c_d3" (by decide) (by decide)

/-- C5: the reported total word occurrences (the row count of the clean
word DataFrame) equals the sum of all frequency-table values, and equals
the number of non-empty normalizer outputs across all lines. -/
theorem claim5_sum_invariant (input : List String) :
    totalOccurrences input = sumCounts input ∧
    totalOccurrences input =
      (((tokens input).map normalize).filter (fun w => w != "")).length := by
  refine ⟨?_, rfl⟩
  rw [totalOccurrences, sumCounts, tableKeys]
  exact ((cleanWords input).sum_map_count_dedup_eq_length).symm

/-- Witness for C5 at the input ["a a b"]. -/
theorem claim5_witness :
    totalOccurrences ["a a b"] = sumCounts ["a a b"] ∧
    totalOccurrences ["a a b"] =
      (((tokens ["a a b"]).map normalize).filter (fun w => w != "")).length :=
  claim5_sum_invariant ["a a b"]

/-- C6: the Top-K report is the count-descending sort of the table's
entries truncated to its first K = 20 rows; the histogram groups entries
by count value, counts how many distinct words share each count, sorts by
count value descending and truncates to 10 rows. (Spark fixes no
tie-break among equal counts; the model picks one arbitrary such order.) -/
theorem claim6_reports (input : List String) :
    (topReport input 20).Sorted countGe ∧
    topReport input 20 = (sortedEntries input).take 20 ∧
    (sortedEntries input).Perm (entries input) ∧
    (histReport input).Sorted fstGe ∧
    (histReport input).length ≤ 10 ∧
    ∀ p ∈ histReport input,
      p.2 = ((entries input).filter (fun e => e.2 == p.1)).length := by
  refine ⟨?_, rfl, List.perm_insertionSort countGe (entries input), ?_, ?_, ?_⟩
  · exact List.Pairwise.sublist (List.take_sublist 20 (sortedEntries input))
      (List.sorted_insertionSort countGe (entries input))
  · exact List.Pairwise.sublist
      (List.take_sublist 10 ((histEntries input).insertionSort fstGe))
      (List.sorted_insertionSort fstGe (histEntries input))
  · exact List.length_take_le 10 _
  · intro p hp
    have hp1 : p ∈ (histEntries input).insertionSort fstGe :=
      List.mem_of_mem_take hp
    have hp2 : p ∈ histEntries input :=
      ((List.perm_insertionSort fstGe (histEntries input)).mem_iff).mp hp1
    obtain ⟨cv, _, rfl⟩ := List.mem_map.mp hp2
    rfl

/-- Witness for C6 at the input ["a a b"]. -/
theorem claim6_witness :
    (topReport ["a a b"] 20).Sorted countGe ∧
    topReport ["a a b"] 20 = (sortedEntries ["a a b"]).take 20 ∧
    (sortedEntries ["a a b"]).Perm (entries ["a a b"]) ∧
    (histReport ["a a b"]).Sorted fstGe ∧
    (histReport ["a a b"]).length ≤ 10 ∧
    ∀ p ∈ histReport ["a a b"],
      p.2 = ((entries ["a a b"]).filter (fun e => e.2 == p.1)).length :=
  claim6_reports ["a a b"]

/-- C7: the single line "a a b" yields the table with keys exactly a and
b mapping to 2 and 1, Top-1 report [(a, 2)], and histogram
[(2, 1), (1, 1)]. -/
theorem claim7_scenario :
    freqTable ["a a b"] "a" = 2 ∧ freqTable ["a a b"] "b" = 1 ∧
    tableKeys ["a a b"] = ["a", "b"] ∧
    topReport ["a a b"] 1 = [("a", 2)] ∧
    histReport ["a a b"] = [(2, 1), (1, 1)] := by decide

/-- C8 on the code: the single empty line is a valid non-error run with
an empty table, zero unique words, zero occurrences and empty reports;
but the empty input (zero lines) is an error — DataFrame creation cannot
infer a schema from an empty dataset and raises, modelled by `none`. -/
theorem claim8_code_eval :
    perform_word_count [] = none ∧
    perform_word_count [""] = some ⟨0, 0, [], []⟩ ∧
    freqTable [""] = emptyTable ∧ tableKeys [""] = [] ∧
    totalOccurrences [""] = 0 := by
  refine ⟨rfl, by decide, ?_, by decide, by decide⟩
  funext w
  rfl

/-- C9: every key of the final frequency table is distinct and maps to a
count of at least 1. -/
theorem claim9_table_invariant (input : List String) :
    (tableKeys input).Nodup ∧ ∀ w ∈ tableKeys input, 1 ≤ freqTable input w := by
  refine ⟨List.nodup_dedup _, fun w hw => ?_⟩
  have hmem : w ∈ cleanWords input := List.mem_dedup.mp hw
  exact List.count_pos_iff.mpr hmem

/-- Witness for C9 at the input ["a a b"] and the key "a". -/
theorem claim9_witness : 1 ≤ freqTable ["a a b"] "a" :=
  (claim9_table_invariant ["a a b"]).2 "a" (by decide)

/-- C10: the implemented word-character class is ASCII [A-Za-z0-9_]: no
character above U+007F survives normalization of any token, and in
particular "café" normalizes to "caf". -/
theorem claim10_ascii_word_class :
    (∀ c : Char, 127 < c.toNat → ∀ t : String, c ∉ (normalize t).data) ∧
    normalize "café" = "caf" := by
  refine ⟨fun c hc t hmem => ?_, by decide⟩
  have hmem' : c ∈ (t.data.filter isWordChar).map lowerChar := hmem
  obtain ⟨d, hd, rfl⟩ := List.mem_map.mp hmem'
  have hle := lowerChar_toNat_le d (List.of_mem_filter hd)
  omega

/-- Witness for C10: the accented character of "café" is absent from its
normalization. -/
theorem claim10_witness : 'é' ∉ (normalize "café").data :=
  claim10_ascii_word_class.1 'é' (by decide) "café"

end WC
